import Mathlib

/-! xedgewarp: the RandR output registry and its spatial queries.

A shallow embedding of `src/randr.c`.  The global `TAILQ` of outputs is a
`List Output` passed explicitly, in insertion order; a `NULL` pointer is `none`.
Coordinates are mathematical integers: the development covers the range of values
in which the C arithmetic of `randr.c` does not wrap.
-/

namespace XEdgeWarp

/-! ## Data model -/

/-- Modelled from the spec: `types.h` is not among the sources.  A position `(x, y)`
in the coordinate space of the rectangles, typically the pointer location. -/
structure position_t where
  x : Int
  y : Int
deriving DecidableEq, Repr

/-- Modelled from the spec: `types.h` is not among the sources.  An axis-aligned
rectangle with integer top-left corner `x, y` and unsigned `width, height`. -/
structure Rect where
  x : Int
  y : Int
  width : Nat
  height : Nat
deriving DecidableEq, Repr

/-- Modelled from the spec: `types.h` is not among the sources.  An output is an
identifier together with its rectangle (the list linkage is carried by `List`). -/
structure Output where
  id : Nat
  rect : Rect
deriving DecidableEq, Repr

/-- Modelled from the spec: `types.h` is not among the sources.  The four directions,
and `D_UNKNOWN raw` for any other value a variable of the C enumeration type can hold
(the `default:` branches of `randr.c`). -/
inductive direction_t where
  | D_TOP
  | D_LEFT
  | D_BOTTOM
  | D_RIGHT
  | D_UNKNOWN (raw : Int)
deriving DecidableEq, Repr

open direction_t

/-- Modelled from the spec: the macro `ABS` comes from a header that is not among the
sources; the absolute value of a signed integer. -/
def ABS (a : Int) : Int := if a < 0 then -a else a

/-- Modelled from the spec: the macro `MIN` comes from a header that is not among the
sources; the smaller of two signed integers. -/
def MIN (a b : Int) : Int := if a < b then a else b

/-! ## Queries of `randr.c` -/

/-- The function `randr_get_output_containing`: the `TAILQ_FOREACH` scan that returns the
current output as soon as its rectangle holds the pointer, and `NULL` after the loop. -/
def randr_get_output_containing (outputs : List Output) (pointer : position_t) :
    Option Output :=
  match outputs with
  | [] => none
  | current :: rest =>
    if pointer.x ≥ current.rect.x ∧ pointer.x < current.rect.x + current.rect.width ∧
        pointer.y ≥ current.rect.y ∧ pointer.y < current.rect.y + current.rect.height then
      some current
    else
      randr_get_output_containing rest pointer

/-- The function `randr_neighbors_in_direction`: `false` on a `NULL` argument, the edge
equalities for `D_TOP` and `D_LEFT`, the swapped recursive call for `D_BOTTOM` and
`D_RIGHT`, and `false` on any other value. -/
def randr_neighbors_in_direction (first_output second_output : Option Output)
    (direction : direction_t) : Bool :=
  match first_output, second_output with
  | none, _ => false
  | some _, none => false
  | some first, some second =>
    match direction with
    | D_TOP => decide (second.rect.y + second.rect.height = first.rect.y)
    | D_LEFT => decide (second.rect.x + second.rect.width = first.rect.x)
    | D_BOTTOM => randr_neighbors_in_direction (some second) (some first) D_TOP
    | D_RIGHT => randr_neighbors_in_direction (some second) (some first) D_LEFT
    | D_UNKNOWN _ => false
termination_by (match direction with | D_BOTTOM => 1 | D_RIGHT => 1 | _ => 0)

/-- The function `randr_get_output_closer_to`: when one candidate is `NULL` the other is
returned; otherwise the two metrics are computed on the axis perpendicular to the
direction and `d_first < d_second ? first : second` is returned (`NULL` on an unknown
direction). -/
def randr_get_output_closer_to (pointer : position_t) (direction : direction_t)
    (first second : Option Output) : Option Output :=
  match first, second with
  | none, _ => second
  | some _, none => first
  | some f, some s =>
    let metrics : Option (Int × Int) :=
      match direction with
      | D_TOP | D_BOTTOM =>
        some (MIN (ABS (pointer.x - f.rect.x))
                  (ABS (pointer.x - (f.rect.x + f.rect.width - 1))),
              MIN (ABS (pointer.x - s.rect.x))
                  (ABS (pointer.x - (s.rect.x + s.rect.width - 1))))
      | D_LEFT | D_RIGHT =>
        some (MIN (ABS (pointer.y - f.rect.y))
                  (ABS (pointer.y - (f.rect.y + f.rect.height))),
              MIN (ABS (pointer.y - s.rect.y))
                  (ABS (pointer.y - (s.rect.y + s.rect.height))))
      | D_UNKNOWN _ => none
    match metrics with
    | none => none
    | some (d_first, d_second) => if d_first < d_second then first else second

/-- The loop of `randr_next_output_in_direction`, started with the outputs still to visit
and the current value of `best`. -/
def next_output_loop (frm : Option Output) (pointer : position_t) (direction : direction_t) :
    List Output → Option Output → Option Output
  | [], best => best
  | output :: rest, best =>
    if !randr_neighbors_in_direction frm (some output) direction then
      next_output_loop frm pointer direction rest best
    else
      next_output_loop frm pointer direction rest
        (randr_get_output_closer_to pointer direction best (some output))

/-- The function `randr_next_output_in_direction`: `best` starts as `NULL` and the loop
runs over the whole list of outputs. -/
def randr_next_output_in_direction (outputs : List Output) (frm : Option Output)
    (pointer : position_t) (direction : direction_t) : Option Output :=
  next_output_loop frm pointer direction outputs none

/-- The loop of `randr_cycle_output_in_direction`, started with the outputs still to visit
and the current value of `best`; the `default:` branch returns `NULL` at once. -/
def cycle_output_loop (pointer : position_t) (direction : direction_t) :
    List Output → Option Output → Option Output
  | [], best => best
  | output :: rest, best =>
    match direction with
    | D_TOP | D_BOTTOM =>
      if output.rect.x + output.rect.width ≤ pointer.x ∨ output.rect.x > pointer.x then
        cycle_output_loop pointer direction rest best
      else if (match best with
          | none => true
          | some b =>
            (decide (direction = D_TOP) &&
              decide (output.rect.y + output.rect.height > b.rect.y + b.rect.height)) ||
            (decide (direction = D_BOTTOM) && decide (output.rect.y < b.rect.y))) then
        cycle_output_loop pointer direction rest (some output)
      else
        cycle_output_loop pointer direction rest best
    | D_LEFT | D_RIGHT =>
      if output.rect.y + output.rect.height ≤ pointer.y ∨ output.rect.y > pointer.y then
        cycle_output_loop pointer direction rest best
      else if (match best with
          | none => true
          | some b =>
            (decide (direction = D_LEFT) &&
              decide (output.rect.x + output.rect.width > b.rect.x + b.rect.width)) ||
            (decide (direction = D_RIGHT) && decide (output.rect.x < b.rect.x))) then
        cycle_output_loop pointer direction rest (some output)
      else
        cycle_output_loop pointer direction rest best
    | D_UNKNOWN _ => none

/-- The function `randr_cycle_output_in_direction`: `best` starts as `NULL` and the loop
runs over the whole list of outputs. -/
def randr_cycle_output_in_direction (outputs : List Output) (pointer : position_t)
    (direction : direction_t) : Option Output :=
  cycle_output_loop pointer direction outputs none

/-! ## The registry rebuild of `randr.c` -/

/-- Modelled from the spec: `types.h` is not among the sources.  The global configuration;
`randr.c` reads only whether a fixed (fake) list of outputs is configured. -/
structure Config where
  fake_outputs : Option String
deriving DecidableEq, Repr

/-- The value `XCB_NONE` of the xcb headers. -/
def XCB_NONE : Nat := 0

/-- The value `XCB_RANDR_CONNECTION_DISCONNECTED` of the xcb RandR headers. -/
def XCB_RANDR_CONNECTION_DISCONNECTED : Nat := 1

/-- The fields of `xcb_randr_get_output_info_reply_t` that `randr.c` reads. -/
structure output_info_reply where
  crtc : Nat
  connection : Nat
deriving DecidableEq, Repr

/-- The fields of `xcb_randr_get_crtc_info_reply_t` that `randr.c` reads. -/
structure crtc_info_reply where
  x : Int
  y : Int
  width : Nat
  height : Nat
deriving DecidableEq, Repr

/-- The fields of `xcb_randr_get_screen_resources_current_reply_t` that `randr.c` reads:
the configuration timestamp and the array of output identifiers. -/
structure screen_resources_reply where
  config_timestamp : Nat
  outputs : List Nat
deriving DecidableEq, Repr

/-- What one call of `randr_query_outputs` meets outside the program: the replies of the X
server (`none` is a `NULL` reply) to the screen-resources request, to the output-info
request for an output identifier and timestamp, and to the CRTC-info request for a CRTC
and timestamp; and whether the `calloc` reached in iteration `i` of the loop over the
outputs succeeds. -/
structure XServer where
  screen_resources : Option screen_resources_reply
  output_info : Nat → Nat → Option output_info_reply
  crtc_info : Nat → Nat → Option crtc_info_reply
  calloc_ok : Nat → Bool

/-- Modelled from the spec: `bail` is not among the sources; it is the process-fatal
abort.  A call of `randr_query_outputs` either returns or ends in `bail`; both carry the
list of outputs as it stands at that moment. -/
inductive query_result where
  | returned (outputs : List Output)
  | bailed (outputs : List Output)
deriving DecidableEq, Repr

/-- The list of outputs as a call of `randr_query_outputs` leaves it. -/
def query_result.registry : query_result → List Output
  | query_result.returned outputs => outputs
  | query_result.bailed outputs => outputs

/-- The function `randr_handle_output`: a disabled or disconnected output, a `NULL` CRTC
reply and a failed `calloc` leave the list as it is; otherwise the new record, with the
identifier and the geometry of the CRTC, is inserted at the tail. -/
def randr_handle_output (srv : XServer) (calloc_ok : Bool) (outputs : List Output) (id : Nat)
    (output : output_info_reply) (timestamp : Nat) : List Output :=
  if output.crtc = XCB_NONE ∨ output.connection = XCB_RANDR_CONNECTION_DISCONNECTED then
    outputs
  else
    match srv.crtc_info output.crtc timestamp with
    | none => outputs
    | some crtc =>
      if !calloc_ok then
        outputs
      else
        outputs ++ [⟨id, ⟨crtc.x, crtc.y, crtc.width, crtc.height⟩⟩]

/-- The `while (!TAILQ_EMPTY(&outputs))` loop of `randr_query_outputs`, which removes the
first output until none is left. -/
def clear_outputs : List Output → List Output
  | [] => []
  | _ :: rest => clear_outputs rest

/-- The `for` loop of `randr_query_outputs` from index `i` on, over the identifiers still
to visit: a `NULL` output-info reply is skipped, any other is handed to
`randr_handle_output`. -/
def query_outputs_loop (srv : XServer) (timestamp : Nat) :
    Nat → List Nat → List Output → List Output
  | _, [], outputs => outputs
  | i, id :: rest, outputs =>
    match srv.output_info id timestamp with
    | none => query_outputs_loop srv timestamp (i + 1) rest outputs
    | some output =>
      query_outputs_loop srv timestamp (i + 1) rest
        (randr_handle_output srv (srv.calloc_ok i) outputs id output timestamp)

/-- The function `randr_query_outputs`: nothing is done when fake outputs are configured;
otherwise the list is emptied, the screen resources are requested (`bail` on a `NULL`
reply), and the loop over the outputs of the reply fills the list. -/
def randr_query_outputs (config : Config) (srv : XServer) (outputs : List Output) :
    query_result :=
  if config.fake_outputs ≠ none then
    query_result.returned outputs
  else
    let outputs := clear_outputs outputs
    match srv.screen_resources with
    | none => query_result.bailed outputs
    | some reply =>
      query_result.returned
        (query_outputs_loop srv reply.config_timestamp 0 reply.outputs outputs)

/-! ## Specification-side notions -/

/-- The spec's half-open containment: `x in [rect.x, rect.x+width)` and
`y in [rect.y, rect.y+height)`. -/
def spec_inside (p : position_t) (r : Rect) : Prop :=
  r.x ≤ p.x ∧ p.x < r.x + r.width ∧ r.y ≤ p.y ∧ p.y < r.y + r.height

/-- The spec's overlap of two rectangles: some point lies inside both under half-open
bounds. -/
def spec_overlap (a b : Rect) : Prop :=
  ∃ q : position_t, spec_inside q a ∧ spec_inside q b

instance (p : position_t) (r : Rect) : Decidable (spec_inside p r) := by
  unfold spec_inside
  infer_instance

/-- The four directions of the closed enumeration of the spec. -/
def spec_valid_direction (d : direction_t) : Prop :=
  d = D_TOP ∨ d = D_LEFT ∨ d = D_BOTTOM ∨ d = D_RIGHT

/-- The spec's perpendicular distance of an output `R` to the point `p`, the tie-break
metric: `min(|p.x - R.x|, |p.x - (R.x + R.width - 1)|)` for TOP/BOTTOM and
`min(|p.y - R.y|, |p.y - (R.y + R.height)|)` for LEFT/RIGHT (no metric is defined for
another direction value; `0` is written there). -/
def spec_distance (p : position_t) (d : direction_t) (R : Output) : Int :=
  match d with
  | D_TOP | D_BOTTOM => min |p.x - R.rect.x| |p.x - (R.rect.x + R.rect.width - 1)|
  | D_LEFT | D_RIGHT => min |p.y - R.rect.y| |p.y - (R.rect.y + R.rect.height)|
  | D_UNKNOWN _ => 0

/-- The spec's eligibility for the toroidal search: for TOP/BOTTOM the horizontal span of
the output contains `p.x`, for LEFT/RIGHT its vertical span contains `p.y`. -/
def spec_eligible (p : position_t) (d : direction_t) (o : Output) : Prop :=
  match d with
  | D_TOP | D_BOTTOM => o.rect.x ≤ p.x ∧ p.x < o.rect.x + o.rect.width
  | D_LEFT | D_RIGHT => o.rect.y ≤ p.y ∧ p.y < o.rect.y + o.rect.height
  | D_UNKNOWN _ => False

instance (p : position_t) (d : direction_t) (o : Output) : Decidable (spec_eligible p d o) := by
  cases d <;> simp only [spec_eligible] <;> infer_instance

/-- The edge the spec's toroidal search compares: the bottom edge `y + height` for TOP,
the top edge `y` for BOTTOM, `x + width` for LEFT and `x` for RIGHT. -/
def spec_edge (d : direction_t) (o : Output) : Int :=
  match d with
  | D_TOP => o.rect.y + o.rect.height
  | D_BOTTOM => o.rect.y
  | D_LEFT => o.rect.x + o.rect.width
  | D_RIGHT => o.rect.x
  | D_UNKNOWN _ => 0

/-- The spec's order of the toroidal search: `a` is strictly more extreme than `b` when
its edge is larger for TOP and LEFT (which take the maximum) and smaller for BOTTOM and
RIGHT (which take the minimum). -/
def spec_more_extreme (d : direction_t) (a b : Output) : Prop :=
  match d with
  | D_TOP | D_LEFT => spec_edge d b < spec_edge d a
  | D_BOTTOM | D_RIGHT => spec_edge d a < spec_edge d b
  | D_UNKNOWN _ => False

instance (d : direction_t) (a b : Output) : Decidable (spec_more_extreme d a b) := by
  cases d <;> simp only [spec_more_extreme] <;> infer_instance

/-- The spec's resolution of one output of the snapshot: its output info resolved, it has
a CRTC, it is not disconnected, and the geometry of its CRTC resolved; the record carries
the identifier and the `x, y, width, height` of the CRTC. -/
def spec_resolved (srv : XServer) (timestamp id : Nat) : Option Output :=
  match srv.output_info id timestamp with
  | none => none
  | some info =>
    if info.crtc = XCB_NONE ∨ info.connection = XCB_RANDR_CONNECTION_DISCONNECTED then
      none
    else
      match srv.crtc_info info.crtc timestamp with
      | none => none
      | some geometry =>
        some ⟨id, ⟨geometry.x, geometry.y, geometry.width, geometry.height⟩⟩

/-- The registry the spec describes after a rebuild: in snapshot order, the outputs of the
snapshot that resolve. -/
def spec_rebuilt (srv : XServer) (reply : screen_resources_reply) : List Output :=
  reply.outputs.filterMap (spec_resolved srv reply.config_timestamp)

/-- The registry after a rebuild with the allocation taken into account: in snapshot
order, the outputs of the snapshot that resolve and whose record could be allocated. -/
def spec_rebuilt_allocated (srv : XServer) (reply : screen_resources_reply) : List Output :=
  reply.outputs.enum.filterMap
    (fun e => if srv.calloc_ok e.1 then spec_resolved srv reply.config_timestamp e.2 else none)

/-! ## Auxiliary facts about the embedding -/

theorem neighbors_top (a b : Output) :
    randr_neighbors_in_direction (some a) (some b) D_TOP
      = decide (b.rect.y + b.rect.height = a.rect.y) := by
  rw [randr_neighbors_in_direction]

theorem neighbors_left (a b : Output) :
    randr_neighbors_in_direction (some a) (some b) D_LEFT
      = decide (b.rect.x + b.rect.width = a.rect.x) := by
  rw [randr_neighbors_in_direction]

theorem neighbors_bottom (a b : Output) :
    randr_neighbors_in_direction (some a) (some b) D_BOTTOM
      = decide (a.rect.y + a.rect.height = b.rect.y) := by
  rw [randr_neighbors_in_direction, neighbors_top]

theorem neighbors_right (a b : Output) :
    randr_neighbors_in_direction (some a) (some b) D_RIGHT
      = decide (a.rect.x + a.rect.width = b.rect.x) := by
  rw [randr_neighbors_in_direction, neighbors_left]

theorem neighbors_unknown (a b : Option Output) (raw : Int) :
    randr_neighbors_in_direction a b (D_UNKNOWN raw) = false := by
  cases a <;> cases b <;> simp [randr_neighbors_in_direction]

theorem contains_cons (o : Output) (rest : List Output) (p : position_t) :
    randr_get_output_containing (o :: rest) p
      = if spec_inside p o.rect then some o else randr_get_output_containing rest p := by
  simp only [randr_get_output_containing, spec_inside, ge_iff_le]

theorem contains_none_iff (outputs : List Output) (p : position_t) :
    randr_get_output_containing outputs p = none ↔
      ∀ o ∈ outputs, ¬ spec_inside p o.rect := by
  induction outputs with
  | nil => simp [randr_get_output_containing]
  | cons o rest ih =>
    rw [contains_cons]
    by_cases h : spec_inside p o.rect
    · simp [h]
    · simp [h, ih]

theorem contains_of_split (front : List Output) (r : Output) (back : List Output)
    (p : position_t) (hr : spec_inside p r.rect)
    (hfront : ∀ q ∈ front, ¬ spec_inside p q.rect) :
    randr_get_output_containing (front ++ r :: back) p = some r := by
  induction front with
  | nil => simp [contains_cons, hr]
  | cons o rest ih =>
    have ho : ¬ spec_inside p o.rect := hfront o (List.mem_cons_self o rest)
    have hrest : ∀ q ∈ rest, ¬ spec_inside p q.rect :=
      fun q hq => hfront q (List.mem_cons_of_mem o hq)
    simp [contains_cons, ho, ih hrest]

theorem contains_some_split (outputs : List Output) (p : position_t) (r : Output)
    (h : randr_get_output_containing outputs p = some r) :
    ∃ front back, outputs = front ++ r :: back ∧ spec_inside p r.rect ∧
      ∀ q ∈ front, ¬ spec_inside p q.rect := by
  induction outputs with
  | nil => simp [randr_get_output_containing] at h
  | cons o rest ih =>
    rw [contains_cons] at h
    by_cases ho : spec_inside p o.rect
    · rw [if_pos ho] at h
      cases h
      exact ⟨[], rest, rfl, ho, by simp⟩
    · rw [if_neg ho] at h
      obtain ⟨front, back, hsplit, hin, hfront⟩ := ih h
      refine ⟨o :: front, back, by simp [hsplit], hin, ?_⟩
      intro q hq
      rcases List.mem_cons.mp hq with rfl | hq
      · exact ho
      · exact hfront q hq

/-! ## C3: point containment -/

/-- C3: `randr_get_output_containing` returns `none` exactly when no output of the
registry contains the point under half-open bounds; a returned output is the first one
in registry order that contains it, and the first such output is the one returned; a
point with `p.x = rect.x + width` or `p.y = rect.y + height` is never reported inside
that rectangle. -/
theorem C3_contains_first_match (outputs : List Output) (p : position_t) :
    (randr_get_output_containing outputs p = none ↔
      ∀ o ∈ outputs, ¬ (o.rect.x ≤ p.x ∧ p.x < o.rect.x + o.rect.width ∧
        o.rect.y ≤ p.y ∧ p.y < o.rect.y + o.rect.height)) ∧
    (∀ r, randr_get_output_containing outputs p = some r →
      ∃ front back, outputs = front ++ r :: back ∧ spec_inside p r.rect ∧
        ∀ q ∈ front, ¬ spec_inside p q.rect) ∧
    (∀ front r back, outputs = front ++ r :: back → spec_inside p r.rect →
      (∀ q ∈ front, ¬ spec_inside p q.rect) →
      randr_get_output_containing outputs p = some r) ∧
    (∀ r : Output, p.x = r.rect.x + r.rect.width ∨ p.y = r.rect.y + r.rect.height →
      randr_get_output_containing outputs p ≠ some r) := by
  refine ⟨contains_none_iff outputs p, contains_some_split outputs p, ?_, ?_⟩
  · intro front r back hsplit hr hfront
    rw [hsplit]
    exact contains_of_split front r back p hr hfront
  · intro r hedge hsome
    obtain ⟨_, _, _, hin, _⟩ := contains_some_split outputs p r hsome
    unfold spec_inside at hin
    omega

/-! ## C4, C5: the adjacency predicate -/

/-- C4: for outputs `a` and `b`, adjacency towards `D_TOP` holds exactly when
`b.y + b.height = a.y` and towards `D_LEFT` exactly when `b.x + b.width = a.x`; so with a
gap `g ≠ 0` (for instance one pixel) between the facing edges the outputs are not
adjacent, and with coinciding edges they are. -/
theorem C4_adjacent_iff_edges_touch (a b : Output) :
    (randr_neighbors_in_direction (some a) (some b) D_TOP = true ↔
      b.rect.y + b.rect.height = a.rect.y) ∧
    (randr_neighbors_in_direction (some a) (some b) D_LEFT = true ↔
      b.rect.x + b.rect.width = a.rect.x) ∧
    (∀ g : Int, g ≠ 0 → b.rect.y + b.rect.height + g = a.rect.y →
      randr_neighbors_in_direction (some a) (some b) D_TOP = false) ∧
    (∀ g : Int, g ≠ 0 → b.rect.x + b.rect.width + g = a.rect.x →
      randr_neighbors_in_direction (some a) (some b) D_LEFT = false) := by
  refine ⟨?_, ?_, ?_, ?_⟩
  · rw [neighbors_top, decide_eq_true_iff]
  · rw [neighbors_left, decide_eq_true_iff]
  · intro g hg hgap
    rw [neighbors_top, decide_eq_false_iff_not]
    omega
  · intro g hg hgap
    rw [neighbors_left, decide_eq_false_iff_not]
    omega

/-- C5: adjacency towards `D_BOTTOM` is adjacency towards `D_TOP` with the outputs
swapped, and adjacency towards `D_RIGHT` is adjacency towards `D_LEFT` with the outputs
swapped. -/
theorem C5_adjacency_symmetry (a b : Output) :
    randr_neighbors_in_direction (some a) (some b) D_BOTTOM
      = randr_neighbors_in_direction (some b) (some a) D_TOP ∧
    randr_neighbors_in_direction (some a) (some b) D_RIGHT
      = randr_neighbors_in_direction (some b) (some a) D_LEFT := by
  constructor
  · rw [neighbors_bottom, neighbors_top]
  · rw [neighbors_right, neighbors_left]

/-! ## C8: absence is an identity of the tie-break -/

/-- C8: for every pointer, every direction value (one of the four or not) and every
output `X`, `randr_get_output_closer_to` returns `X` when the other candidate is absent,
on either side, and returns none when both are absent. -/
theorem C8_closer_identity_on_absence (p : position_t) (d : direction_t) (X : Output) :
    randr_get_output_closer_to p d (some X) none = some X ∧
    randr_get_output_closer_to p d none (some X) = some X ∧
    randr_get_output_closer_to p d none none = none := by
  refine ⟨?_, ?_, ?_⟩ <;> simp [randr_get_output_closer_to]

/-! ## C10: containment under a well-formed topology -/

/-- C10: in a registry whose rectangles are pairwise non-overlapping, a point inside the
rectangle of a registered output `O` is reported as contained in `O`. -/
theorem C10_contains_finds_owner (outputs : List Output) (O : Output) (p : position_t)
    (hwf : outputs.Pairwise (fun a b => ¬ spec_overlap a.rect b.rect))
    (hO : O ∈ outputs)
    (hin : O.rect.x ≤ p.x ∧ p.x < O.rect.x + O.rect.width ∧
      O.rect.y ≤ p.y ∧ p.y < O.rect.y + O.rect.height) :
    randr_get_output_containing outputs p = some O := by
  have hinside : spec_inside p O.rect := hin
  cases hres : randr_get_output_containing outputs p with
  | none => exact absurd hinside ((contains_none_iff outputs p).mp hres O hO)
  | some r =>
    obtain ⟨front, back, hsplit, hr, hfront⟩ := contains_some_split outputs p r hres
    rw [hsplit] at hO hwf
    rcases List.mem_append.mp hO with hmem | hmem
    · exact absurd hinside (hfront O hmem)
    · rcases List.mem_cons.mp hmem with rfl | hmem
      · rfl
      · have hpair := (List.pairwise_append.mp hwf).2.1
        have hno : ¬ spec_overlap r.rect O.rect := (List.pairwise_cons.mp hpair).1 O hmem
        exact absurd ⟨p, hr, hinside⟩ hno

/-- C10 at a concrete input: two side-by-side screens and a point on the second one. -/
theorem C10_contains_finds_owner_witness :
    randr_get_output_containing
      [⟨1, ⟨0, 0, 1920, 1080⟩⟩, ⟨2, ⟨1920, 0, 1920, 1080⟩⟩] ⟨2000, 540⟩
      = some ⟨2, ⟨1920, 0, 1920, 1080⟩⟩ :=
  C10_contains_finds_owner
    [⟨1, ⟨0, 0, 1920, 1080⟩⟩, ⟨2, ⟨1920, 0, 1920, 1080⟩⟩] ⟨2, ⟨1920, 0, 1920, 1080⟩⟩
    ⟨2000, 540⟩
    (by
      simp only [List.pairwise_cons, List.mem_singleton, List.not_mem_nil, forall_eq,
        List.Pairwise.nil, and_true, false_implies, implies_true]
      rintro ⟨q, h1, h2⟩
      simp only [spec_inside] at h1 h2
      omega)
    (by simp)
    (by decide)

/-! ## Auxiliary facts about the tie-break and the bounded search -/

theorem ABS_eq_abs (a : Int) : ABS a = |a| := by
  unfold ABS
  split
  · rename_i h
    rw [abs_of_neg h]
  · rename_i h
    rw [abs_of_nonneg (not_lt.mp h)]

theorem MIN_eq_min (a b : Int) : MIN a b = min a b := by
  unfold MIN
  split
  · rename_i h
    rw [min_eq_left (le_of_lt h)]
  · rename_i h
    rw [min_eq_right (not_lt.mp h)]

theorem closer_some_some (p : position_t) (d : direction_t) (f s : Output)
    (hd : spec_valid_direction d) :
    randr_get_output_closer_to p d (some f) (some s)
      = if spec_distance p d f < spec_distance p d s then some f else some s := by
  rcases hd with rfl | rfl | rfl | rfl <;>
    simp only [randr_get_output_closer_to, spec_distance, ABS_eq_abs, MIN_eq_min]

theorem neighbors_valid (a b : Option Output) (d : direction_t)
    (h : randr_neighbors_in_direction a b d = true) : spec_valid_direction d := by
  cases d with
  | D_TOP => exact Or.inl rfl
  | D_LEFT => exact Or.inr (Or.inl rfl)
  | D_BOTTOM => exact Or.inr (Or.inr (Or.inl rfl))
  | D_RIGHT => exact Or.inr (Or.inr (Or.inr rfl))
  | D_UNKNOWN raw => rw [neighbors_unknown] at h; cases h

/-- What one application of the tie-break to the running `best` and an adjacent output
yields: a present output, either the new one or the old `best`, no further from the
pointer than either. -/
theorem closer_step (p : position_t) (d : direction_t) (best : Option Output) (o : Output)
    (hd : spec_valid_direction d) :
    ∃ c, randr_get_output_closer_to p d best (some o) = some c ∧
      (c = o ∨ best = some c) ∧ spec_distance p d c ≤ spec_distance p d o ∧
      ∀ b, best = some b → spec_distance p d c ≤ spec_distance p d b := by
  cases best with
  | none => exact ⟨o, by simp [randr_get_output_closer_to], Or.inl rfl, le_refl _, by simp⟩
  | some b =>
    rw [closer_some_some p d b o hd]
    by_cases h : spec_distance p d b < spec_distance p d o
    · refine ⟨b, by simp [h], Or.inr rfl, le_of_lt h, ?_⟩
      intro b2 hb2
      cases hb2
      exact le_refl _
    · refine ⟨o, by simp [h], Or.inl rfl, le_refl _, ?_⟩
      intro b2 hb2
      cases hb2
      exact not_lt.mp h

theorem next_loop_cons (frm : Option Output) (p : position_t) (d : direction_t)
    (o : Output) (rest : List Output) (best : Option Output) :
    next_output_loop frm p d (o :: rest) best
      = if randr_neighbors_in_direction frm (some o) d = true then
          next_output_loop frm p d rest (randr_get_output_closer_to p d best (some o))
        else next_output_loop frm p d rest best := by
  cases h : randr_neighbors_in_direction frm (some o) d <;> simp [next_output_loop, h]

theorem next_loop_append (frm : Option Output) (p : position_t) (d : direction_t)
    (l1 l2 : List Output) (best : Option Output) :
    next_output_loop frm p d (l1 ++ l2) best
      = next_output_loop frm p d l2 (next_output_loop frm p d l1 best) := by
  induction l1 generalizing best with
  | nil => simp [next_output_loop]
  | cons o rest ih =>
    rw [List.cons_append, next_loop_cons, next_loop_cons]
    split <;> exact ih _

theorem next_loop_none_iff (frm : Option Output) (p : position_t) (d : direction_t)
    (l : List Output) (best : Option Output) :
    next_output_loop frm p d l best = none ↔
      best = none ∧ ∀ o ∈ l, randr_neighbors_in_direction frm (some o) d = false := by
  induction l generalizing best with
  | nil => simp [next_output_loop]
  | cons o rest ih =>
    rw [next_loop_cons]
    by_cases h : randr_neighbors_in_direction frm (some o) d = true
    · rw [if_pos h, ih]
      obtain ⟨c, hc, _⟩ := closer_step p d best o (neighbors_valid _ _ d h)
      simp [hc, h]
    · rw [if_neg h, ih]
      simp [Bool.not_eq_true _ ▸ h]

theorem next_loop_some (frm : Option Output) (p : position_t) (d : direction_t)
    (l : List Output) (best : Option Output) (r : Output)
    (h : next_output_loop frm p d l best = some r) :
    (best = some r ∨ (r ∈ l ∧ randr_neighbors_in_direction frm (some r) d = true)) ∧
      (∀ b, best = some b → spec_distance p d r ≤ spec_distance p d b) ∧
      (∀ o ∈ l, randr_neighbors_in_direction frm (some o) d = true →
        spec_distance p d r ≤ spec_distance p d o) := by
  induction l generalizing best with
  | nil =>
    simp only [next_output_loop] at h
    refine ⟨Or.inl h, ?_, by simp⟩
    intro b hb
    rw [hb] at h
    cases h
    exact le_refl _
  | cons o rest ih =>
    rw [next_loop_cons] at h
    by_cases hadj : randr_neighbors_in_direction frm (some o) d = true
    · rw [if_pos hadj] at h
      obtain ⟨c, hc, hcwho, hco, hcb⟩ := closer_step p d best o (neighbors_valid _ _ d hadj)
      rw [hc] at h
      obtain ⟨hwho, hbest, hrest⟩ := ih (some c) h
      have hrc : spec_distance p d r ≤ spec_distance p d c := hbest c rfl
      refine ⟨?_, ?_, ?_⟩
      · rcases hwho with hrc2 | ⟨hmem, hradj⟩
        · cases hrc2
          rcases hcwho with rfl | hb
          · exact Or.inr ⟨List.mem_cons_self _ _, hadj⟩
          · exact Or.inl hb
        · exact Or.inr ⟨List.mem_cons_of_mem _ hmem, hradj⟩
      · intro b hb
        exact le_trans hrc (hcb b hb)
      · intro q hq hqadj
        rcases List.mem_cons.mp hq with rfl | hq
        · exact le_trans hrc hco
        · exact hrest q hq hqadj
    · rw [if_neg hadj] at h
      obtain ⟨hwho, hbest, hrest⟩ := ih best h
      refine ⟨?_, hbest, ?_⟩
      · rcases hwho with hb | ⟨hmem, hradj⟩
        · exact Or.inl hb
        · exact Or.inr ⟨List.mem_cons_of_mem _ hmem, hradj⟩
      · intro q hq hqadj
        rcases List.mem_cons.mp hq with rfl | hq
        · exact absurd hqadj hadj
        · exact hrest q hq hqadj

/-- A running `best` that is strictly nearer than every adjacent output still to come
is the result of the loop. -/
theorem next_loop_keeps (frm : Option Output) (p : position_t) (d : direction_t)
    (l : List Output) (r : Output)
    (h : ∀ q ∈ l, randr_neighbors_in_direction frm (some q) d = true →
      spec_distance p d r < spec_distance p d q) :
    next_output_loop frm p d l (some r) = some r := by
  induction l with
  | nil => simp [next_output_loop]
  | cons o rest ih =>
    rw [next_loop_cons]
    have hrest : ∀ q ∈ rest, randr_neighbors_in_direction frm (some q) d = true →
        spec_distance p d r < spec_distance p d q :=
      fun q hq => h q (List.mem_cons_of_mem _ hq)
    by_cases hadj : randr_neighbors_in_direction frm (some o) d = true
    · rw [if_pos hadj, closer_some_some p d r o (neighbors_valid _ _ d hadj),
        if_pos (h o (List.mem_cons_self _ _) hadj)]
      exact ih hrest
    · rw [if_neg hadj]
      exact ih hrest

/-! ## C1: the bounded directional search -/

/-- C1: for every registry, output `frm`, point `p` and direction `d` (each of the four
directions; the statement also holds for any other direction value, where nothing is
adjacent), `randr_next_output_in_direction` returns none exactly when no output of the registry is
adjacent to `frm` in direction `d`; a returned output is a member of the registry, is
adjacent to `frm` in direction `d`, and its perpendicular distance to `p` is at most that
of every registry output adjacent to `frm` in direction `d`. -/
theorem C1_next_output_nearest_neighbor (outputs : List Output) (frm : Output)
    (p : position_t) (d : direction_t) :
    (randr_next_output_in_direction outputs (some frm) p d = none ↔
      ∀ o ∈ outputs, randr_neighbors_in_direction (some frm) (some o) d = false) ∧
    (∀ r, randr_next_output_in_direction outputs (some frm) p d = some r →
      r ∈ outputs ∧ randr_neighbors_in_direction (some frm) (some r) d = true ∧
      ∀ o ∈ outputs, randr_neighbors_in_direction (some frm) (some o) d = true →
        spec_distance p d r ≤ spec_distance p d o) := by
  constructor
  · unfold randr_next_output_in_direction
    rw [next_loop_none_iff]
    simp
  · intro r hr
    obtain ⟨hwho, _, hmin⟩ := next_loop_some (some frm) p d outputs none r hr
    rcases hwho with hnone | ⟨hmem, hadj⟩
    · cases hnone
    · exact ⟨hmem, hadj, hmin⟩

/-- C1 at a concrete input: below a screen sit a wide and a narrow screen; towards
`D_BOTTOM` from a pointer at `x = 150` the narrow one, whose edge is nearer, is found. -/
theorem C1_next_output_nearest_neighbor_witness :
    randr_next_output_in_direction
      [⟨1, ⟨0, 0, 300, 100⟩⟩, ⟨2, ⟨0, 100, 100, 100⟩⟩, ⟨3, ⟨100, 100, 200, 100⟩⟩]
      (some ⟨1, ⟨0, 0, 300, 100⟩⟩) ⟨150, 99⟩ D_BOTTOM = some ⟨3, ⟨100, 100, 200, 100⟩⟩ ∧
    ((randr_next_output_in_direction
      [⟨1, ⟨0, 0, 300, 100⟩⟩, ⟨2, ⟨0, 100, 100, 100⟩⟩, ⟨3, ⟨100, 100, 200, 100⟩⟩]
      (some ⟨1, ⟨0, 0, 300, 100⟩⟩) ⟨150, 99⟩ D_BOTTOM = none ↔
      ∀ o ∈ [(⟨1, ⟨0, 0, 300, 100⟩⟩ : Output), ⟨2, ⟨0, 100, 100, 100⟩⟩,
          ⟨3, ⟨100, 100, 200, 100⟩⟩],
        randr_neighbors_in_direction (some ⟨1, ⟨0, 0, 300, 100⟩⟩) (some o) D_BOTTOM
          = false) ∧
    (∀ r, randr_next_output_in_direction
      [⟨1, ⟨0, 0, 300, 100⟩⟩, ⟨2, ⟨0, 100, 100, 100⟩⟩, ⟨3, ⟨100, 100, 200, 100⟩⟩]
      (some ⟨1, ⟨0, 0, 300, 100⟩⟩) ⟨150, 99⟩ D_BOTTOM = some r →
      r ∈ [(⟨1, ⟨0, 0, 300, 100⟩⟩ : Output), ⟨2, ⟨0, 100, 100, 100⟩⟩,
          ⟨3, ⟨100, 100, 200, 100⟩⟩] ∧
      randr_neighbors_in_direction (some ⟨1, ⟨0, 0, 300, 100⟩⟩) (some r) D_BOTTOM = true ∧
      ∀ o ∈ [(⟨1, ⟨0, 0, 300, 100⟩⟩ : Output), ⟨2, ⟨0, 100, 100, 100⟩⟩,
          ⟨3, ⟨100, 100, 200, 100⟩⟩],
        randr_neighbors_in_direction (some ⟨1, ⟨0, 0, 300, 100⟩⟩) (some o) D_BOTTOM = true →
        spec_distance ⟨150, 99⟩ D_BOTTOM r ≤ spec_distance ⟨150, 99⟩ D_BOTTOM o)) :=
  ⟨by simp [randr_next_output_in_direction, next_loop_cons, neighbors_bottom,
      randr_get_output_closer_to, next_output_loop, ABS, MIN],
    C1_next_output_nearest_neighbor _ _ _ _⟩

/-! ## C6, C7: the tie-break between two present candidates -/

/-- C6: for every point, each of the four directions and two present outputs `A`, `B`
whose perpendicular distances to the point differ, `randr_get_output_closer_to` returns
the output with the smaller distance whichever of the two is passed first. -/
theorem C6_closer_picks_nearer (p : position_t) (d : direction_t) (A B : Output)
    (hd : spec_valid_direction d)
    (hne : spec_distance p d A ≠ spec_distance p d B) :
    randr_get_output_closer_to p d (some A) (some B)
      = some (if spec_distance p d A < spec_distance p d B then A else B) ∧
    randr_get_output_closer_to p d (some B) (some A)
      = some (if spec_distance p d A < spec_distance p d B then A else B) := by
  rw [closer_some_some p d A B hd, closer_some_some p d B A hd]
  rcases lt_or_gt_of_ne hne with h | h
  · simp [h, not_lt.mpr (le_of_lt h)]
  · simp [h, not_lt.mpr (le_of_lt h)]

/-- C6 at a concrete input: towards `D_LEFT`, a pointer at `y = 10` is at distance 10 from
an output spanning `y` 0..100 and at distance 40 from one spanning `y` 50..150. -/
theorem C6_closer_picks_nearer_witness :
    randr_get_output_closer_to ⟨0, 10⟩ D_LEFT
        (some ⟨1, ⟨-100, 0, 100, 100⟩⟩) (some ⟨2, ⟨-100, 50, 100, 100⟩⟩)
      = some (if spec_distance ⟨0, 10⟩ D_LEFT ⟨1, ⟨-100, 0, 100, 100⟩⟩
            < spec_distance ⟨0, 10⟩ D_LEFT ⟨2, ⟨-100, 50, 100, 100⟩⟩
          then ⟨1, ⟨-100, 0, 100, 100⟩⟩ else ⟨2, ⟨-100, 50, 100, 100⟩⟩) ∧
    randr_get_output_closer_to ⟨0, 10⟩ D_LEFT
        (some ⟨2, ⟨-100, 50, 100, 100⟩⟩) (some ⟨1, ⟨-100, 0, 100, 100⟩⟩)
      = some (if spec_distance ⟨0, 10⟩ D_LEFT ⟨1, ⟨-100, 0, 100, 100⟩⟩
            < spec_distance ⟨0, 10⟩ D_LEFT ⟨2, ⟨-100, 50, 100, 100⟩⟩
          then ⟨1, ⟨-100, 0, 100, 100⟩⟩ else ⟨2, ⟨-100, 50, 100, 100⟩⟩) :=
  C6_closer_picks_nearer ⟨0, 10⟩ D_LEFT ⟨1, ⟨-100, 0, 100, 100⟩⟩ ⟨2, ⟨-100, 50, 100, 100⟩⟩
    (Or.inr (Or.inl rfl)) (by decide)

/-- C7, refuted as stated: towards `D_TOP` from a screen at `y = 10`, two adjacent outputs
lie at the same perpendicular distance 6 from a pointer at `x = 10`; the tie-break
returns the second candidate, not the first, and the bounded search over the registry
returns the later of the two outputs. -/
theorem C7_tie_returns_second_counterexample :
    spec_distance ⟨10, 10⟩ D_TOP ⟨1, ⟨0, 0, 5, 10⟩⟩
      = spec_distance ⟨10, 10⟩ D_TOP ⟨2, ⟨16, 0, 5, 10⟩⟩ ∧
    randr_get_output_closer_to ⟨10, 10⟩ D_TOP
        (some ⟨1, ⟨0, 0, 5, 10⟩⟩) (some ⟨2, ⟨16, 0, 5, 10⟩⟩)
      ≠ some ⟨1, ⟨0, 0, 5, 10⟩⟩ ∧
    randr_neighbors_in_direction (some ⟨0, ⟨0, 10, 30, 10⟩⟩) (some ⟨1, ⟨0, 0, 5, 10⟩⟩) D_TOP
      = true ∧
    randr_neighbors_in_direction (some ⟨0, ⟨0, 10, 30, 10⟩⟩) (some ⟨2, ⟨16, 0, 5, 10⟩⟩) D_TOP
      = true ∧
    randr_next_output_in_direction
        [⟨0, ⟨0, 10, 30, 10⟩⟩, ⟨1, ⟨0, 0, 5, 10⟩⟩, ⟨2, ⟨16, 0, 5, 10⟩⟩]
        (some ⟨0, ⟨0, 10, 30, 10⟩⟩) ⟨10, 10⟩ D_TOP
      = some ⟨2, ⟨16, 0, 5, 10⟩⟩ := by
  refine ⟨by decide, by decide, ?_, ?_, ?_⟩
  · simp [neighbors_top]
  · simp [neighbors_top]
  · simp [randr_next_output_in_direction, next_loop_cons, neighbors_top,
      randr_get_output_closer_to, next_output_loop, ABS, MIN]

/-- C7, amended: for every point, each of the four directions and two present outputs at
equal perpendicular distance, `randr_get_output_closer_to` returns `second`, the
candidate evaluated last; so the bounded search returns the adjacent output at minimal
distance that comes latest in traversal order. -/
theorem C7_tie_returns_second (p : position_t) (d : direction_t) (first second : Output)
    (hd : spec_valid_direction d)
    (htie : spec_distance p d first = spec_distance p d second) :
    randr_get_output_closer_to p d (some first) (some second) = some second ∧
    (∀ (frm : Output) (front back : List Output) (r : Output),
      randr_neighbors_in_direction (some frm) (some r) d = true →
      (∀ q ∈ front, randr_neighbors_in_direction (some frm) (some q) d = true →
        spec_distance p d r ≤ spec_distance p d q) →
      (∀ q ∈ back, randr_neighbors_in_direction (some frm) (some q) d = true →
        spec_distance p d r < spec_distance p d q) →
      randr_next_output_in_direction (front ++ r :: back) (some frm) p d = some r) := by
  constructor
  · rw [closer_some_some p d first second hd, htie]
    simp
  · intro frm front back r hadj hfront hback
    unfold randr_next_output_in_direction
    rw [next_loop_append, next_loop_cons, if_pos hadj]
    have hnew : randr_get_output_closer_to p d
        (next_output_loop (some frm) p d front none) (some r) = some r := by
      cases hb : next_output_loop (some frm) p d front none with
      | none => simp [randr_get_output_closer_to]
      | some b =>
        obtain ⟨hwho, _, _⟩ := next_loop_some (some frm) p d front none b hb
        rcases hwho with hnone | ⟨hmem, hbadj⟩
        · cases hnone
        · rw [closer_some_some p d b r hd, if_neg (not_lt.mpr (hfront b hmem hbadj))]
    rw [hnew]
    exact next_loop_keeps (some frm) p d back r hback

/-- C7 (amended) at a concrete input: the two outputs of the counterexample, at equal
distance 6, passed in registry order. -/
theorem C7_tie_returns_second_witness :
    randr_get_output_closer_to ⟨10, 10⟩ D_TOP
        (some ⟨1, ⟨0, 0, 5, 10⟩⟩) (some ⟨2, ⟨16, 0, 5, 10⟩⟩)
      = some ⟨2, ⟨16, 0, 5, 10⟩⟩ ∧
    randr_next_output_in_direction
        ([⟨0, ⟨0, 10, 30, 10⟩⟩, ⟨1, ⟨0, 0, 5, 10⟩⟩] ++ ⟨2, ⟨16, 0, 5, 10⟩⟩ :: [])
        (some ⟨0, ⟨0, 10, 30, 10⟩⟩) ⟨10, 10⟩ D_TOP
      = some ⟨2, ⟨16, 0, 5, 10⟩⟩ :=
  ⟨(C7_tie_returns_second ⟨10, 10⟩ D_TOP ⟨1, ⟨0, 0, 5, 10⟩⟩ ⟨2, ⟨16, 0, 5, 10⟩⟩
      (Or.inl rfl) (by decide)).1,
    (C7_tie_returns_second ⟨10, 10⟩ D_TOP ⟨1, ⟨0, 0, 5, 10⟩⟩ ⟨2, ⟨16, 0, 5, 10⟩⟩
      (Or.inl rfl) (by decide)).2 ⟨0, ⟨0, 10, 30, 10⟩⟩
      [⟨0, ⟨0, 10, 30, 10⟩⟩, ⟨1, ⟨0, 0, 5, 10⟩⟩] [] ⟨2, ⟨16, 0, 5, 10⟩⟩
      (by simp [neighbors_top])
      (by
        intro q hq _
        simp only [List.mem_cons, List.mem_singleton, List.not_mem_nil, or_false] at hq
        rcases hq with rfl | rfl <;> decide)
      (by simp)⟩

/-! ## C9: two side-by-side screens -/

/-- C9: in the registry of `Left = (0, 0, 1920, 1080)` and `Right = (1920, 0, 1920, 1080)`
(whatever their identifiers), the bounded search from `Left` at `(1919, 540)` towards
`D_RIGHT` returns `Right`, from `Right` at `(1920, 540)` towards `D_LEFT` returns `Left`,
from `Left` towards `D_LEFT` returns none, and the toroidal search at `(1919, 540)`
towards `D_LEFT` returns `Right`. -/
theorem C9_side_by_side_scenario (idL idR : Nat) :
    randr_next_output_in_direction
        [⟨idL, ⟨0, 0, 1920, 1080⟩⟩, ⟨idR, ⟨1920, 0, 1920, 1080⟩⟩]
        (some ⟨idL, ⟨0, 0, 1920, 1080⟩⟩) ⟨1919, 540⟩ D_RIGHT
      = some ⟨idR, ⟨1920, 0, 1920, 1080⟩⟩ ∧
    randr_next_output_in_direction
        [⟨idL, ⟨0, 0, 1920, 1080⟩⟩, ⟨idR, ⟨1920, 0, 1920, 1080⟩⟩]
        (some ⟨idR, ⟨1920, 0, 1920, 1080⟩⟩) ⟨1920, 540⟩ D_LEFT
      = some ⟨idL, ⟨0, 0, 1920, 1080⟩⟩ ∧
    randr_next_output_in_direction
        [⟨idL, ⟨0, 0, 1920, 1080⟩⟩, ⟨idR, ⟨1920, 0, 1920, 1080⟩⟩]
        (some ⟨idL, ⟨0, 0, 1920, 1080⟩⟩) ⟨1919, 540⟩ D_LEFT
      = none ∧
    randr_cycle_output_in_direction
        [⟨idL, ⟨0, 0, 1920, 1080⟩⟩, ⟨idR, ⟨1920, 0, 1920, 1080⟩⟩] ⟨1919, 540⟩ D_LEFT
      = some ⟨idR, ⟨1920, 0, 1920, 1080⟩⟩ := by
  refine ⟨?_, ?_, ?_, ?_⟩
  · simp [randr_next_output_in_direction, next_loop_cons, neighbors_right,
      randr_get_output_closer_to, next_output_loop]
  · simp [randr_next_output_in_direction, next_loop_cons, neighbors_left,
      randr_get_output_closer_to, next_output_loop]
  · simp [randr_next_output_in_direction, next_loop_cons, neighbors_left, next_output_loop]
  · simp [randr_cycle_output_in_direction, cycle_output_loop]

/-! ## Auxiliary facts about the toroidal search -/

theorem more_extreme_irrefl (d : direction_t) (a : Output) : ¬ spec_more_extreme d a a := by
  cases d <;> simp [spec_more_extreme]

theorem more_extreme_trans (d : direction_t) (a b c : Output)
    (hab : spec_more_extreme d a b) (hbc : spec_more_extreme d b c) :
    spec_more_extreme d a c := by
  cases d <;> simp only [spec_more_extreme] at * <;> omega

theorem more_extreme_asymm (d : direction_t) (a b : Output)
    (hab : spec_more_extreme d a b) : ¬ spec_more_extreme d b a :=
  fun hba => more_extreme_irrefl d a (more_extreme_trans d a b a hab hba)

theorem more_extreme_of_not (d : direction_t) (r b o : Output)
    (hrb : spec_more_extreme d r b) (hob : ¬ spec_more_extreme d o b) :
    spec_more_extreme d r o := by
  cases d <;> simp only [spec_more_extreme] at * <;> omega

theorem cycle_cons_none (p : position_t) (d : direction_t) (o : Output) (rest : List Output)
    (hd : spec_valid_direction d) :
    cycle_output_loop p d (o :: rest) none
      = if spec_eligible p d o then cycle_output_loop p d rest (some o)
        else cycle_output_loop p d rest none := by
  rcases hd with rfl | rfl | rfl | rfl <;>
    simp only [cycle_output_loop, spec_eligible, if_true] <;>
    split_ifs <;> first | rfl | omega

theorem cycle_cons_some (p : position_t) (d : direction_t) (o : Output) (rest : List Output)
    (b : Output) (hd : spec_valid_direction d) :
    cycle_output_loop p d (o :: rest) (some b)
      = if spec_eligible p d o ∧ spec_more_extreme d o b then
          cycle_output_loop p d rest (some o)
        else cycle_output_loop p d rest (some b) := by
  rcases hd with rfl | rfl | rfl | rfl <;>
    simp [cycle_output_loop, spec_eligible, spec_more_extreme, spec_edge] <;>
    split_ifs <;> first | rfl | omega

/-- The loop started with a present `best` ends with a present output: either `best`
itself, which nothing eligible in the list beats, or the first eligible output of the
list that beats `best` and that nothing eligible in the list beats. -/
theorem cycle_loop_from_some (p : position_t) (d : direction_t)
    (hd : spec_valid_direction d) (l : List Output) (b : Output) :
    ∃ r, cycle_output_loop p d l (some b) = some r ∧
      ((r = b ∧ ∀ q ∈ l, spec_eligible p d q → ¬ spec_more_extreme d q b) ∨
        (∃ front back, l = front ++ r :: back ∧ spec_eligible p d r ∧
          spec_more_extreme d r b ∧
          (∀ q ∈ front, spec_eligible p d q → spec_more_extreme d r q) ∧
          (∀ q ∈ l, spec_eligible p d q → ¬ spec_more_extreme d q r))) := by
  induction l generalizing b with
  | nil => exact ⟨b, by simp [cycle_output_loop], Or.inl ⟨rfl, by simp⟩⟩
  | cons o rest ih =>
    rw [cycle_cons_some p d o rest b hd]
    by_cases hc : spec_eligible p d o ∧ spec_more_extreme d o b
    · rw [if_pos hc]
      obtain ⟨r, hr, hcase⟩ := ih o
      refine ⟨r, hr, Or.inr ?_⟩
      rcases hcase with ⟨rfl, hrest⟩ | ⟨front, back, hsplit, hel, hro, hfront, hall⟩
      · refine ⟨[], rest, rfl, hc.1, hc.2, by simp, ?_⟩
        intro q hq hqe
        rcases List.mem_cons.mp hq with rfl | hq
        · exact more_extreme_irrefl d _
        · exact hrest q hq hqe
      · refine ⟨o :: front, back, by simp [hsplit], hel,
          more_extreme_trans d r o b hro hc.2, ?_, ?_⟩
        · intro q hq hqe
          rcases List.mem_cons.mp hq with rfl | hq
          · exact hro
          · exact hfront q hq hqe
        · intro q hq hqe
          rcases List.mem_cons.mp hq with rfl | hq
          · exact more_extreme_asymm d r _ hro
          · exact hall q hq hqe
    · rw [if_neg hc]
      have hob : spec_eligible p d o → ¬ spec_more_extreme d o b := fun he hm => hc ⟨he, hm⟩
      obtain ⟨r, hr, hcase⟩ := ih b
      refine ⟨r, hr, ?_⟩
      rcases hcase with ⟨rfl, hrest⟩ | ⟨front, back, hsplit, hel, hrb, hfront, hall⟩
      · refine Or.inl ⟨rfl, ?_⟩
        intro q hq hqe
        rcases List.mem_cons.mp hq with rfl | hq
        · exact hob hqe
        · exact hrest q hq hqe
      · refine Or.inr ⟨o :: front, back, by simp [hsplit], hel, hrb, ?_, ?_⟩
        · intro q hq hqe
          rcases List.mem_cons.mp hq with rfl | hq
          · exact more_extreme_of_not d r b _ hrb (hob hqe)
          · exact hfront q hq hqe
        · intro q hq hqe
          rcases List.mem_cons.mp hq with rfl | hq
          · exact more_extreme_asymm d r _ (more_extreme_of_not d r b _ hrb (hob hqe))
          · exact hall q hq hqe

theorem cycle_loop_none_iff (p : position_t) (d : direction_t)
    (hd : spec_valid_direction d) (l : List Output) :
    cycle_output_loop p d l none = none ↔ ∀ o ∈ l, ¬ spec_eligible p d o := by
  induction l with
  | nil => simp [cycle_output_loop]
  | cons o rest ih =>
    rw [cycle_cons_none p d o rest hd]
    by_cases he : spec_eligible p d o
    · rw [if_pos he]
      obtain ⟨r, hr, _⟩ := cycle_loop_from_some p d hd rest o
      simp [hr, he]
    · rw [if_neg he, ih]
      simp [he]

theorem cycle_loop_from_none (p : position_t) (d : direction_t)
    (hd : spec_valid_direction d) (l : List Output) (r : Output)
    (h : cycle_output_loop p d l none = some r) :
    ∃ front back, l = front ++ r :: back ∧ spec_eligible p d r ∧
      (∀ q ∈ l, spec_eligible p d q → ¬ spec_more_extreme d q r) ∧
      (∀ q ∈ front, spec_eligible p d q → spec_more_extreme d r q) := by
  induction l with
  | nil => simp [cycle_output_loop] at h
  | cons o rest ih =>
    rw [cycle_cons_none p d o rest hd] at h
    by_cases he : spec_eligible p d o
    · rw [if_pos he] at h
      obtain ⟨r2, hr2, hcase⟩ := cycle_loop_from_some p d hd rest o
      rw [hr2] at h
      cases h
      rcases hcase with ⟨rfl, hrest⟩ | ⟨front, back, hsplit, hel, hro, hfront, hall⟩
      · refine ⟨[], rest, rfl, he, ?_, by simp⟩
        intro q hq hqe
        rcases List.mem_cons.mp hq with rfl | hq
        · exact more_extreme_irrefl d _
        · exact hrest q hq hqe
      · refine ⟨o :: front, back, by simp [hsplit], hel, ?_, ?_⟩
        · intro q hq hqe
          rcases List.mem_cons.mp hq with rfl | hq
          · exact more_extreme_asymm d _ _ hro
          · exact hall q hq hqe
        · intro q hq hqe
          rcases List.mem_cons.mp hq with rfl | hq
          · exact hro
          · exact hfront q hq hqe
    · rw [if_neg he] at h
      obtain ⟨front, back, hsplit, hel, hall, hfront⟩ := ih h
      refine ⟨o :: front, back, by simp [hsplit], hel, ?_, ?_⟩
      · intro q hq hqe
        rcases List.mem_cons.mp hq with rfl | hq
        · exact absurd hqe he
        · exact hall q hq hqe
      · intro q hq hqe
        rcases List.mem_cons.mp hq with rfl | hq
        · exact absurd hqe he
        · exact hfront q hq hqe

/-! ## C2: the toroidal directional search -/

/-- C2: for every registry, point and each of the four directions,
`randr_cycle_output_in_direction` returns none exactly when no output is eligible;
a returned output is eligible, no eligible output of the registry is more extreme (it
attains the maximum of `y + height` for TOP, the minimum of `y` for BOTTOM, the maximum
of `x + width` for LEFT, the minimum of `x` for RIGHT), and every eligible output before
it in traversal order is strictly less extreme (it is the first to attain the extremum).
For three stacked outputs `A` (y 0..100), `B` (y 100..200), `C` (y 200..300) of x-span
`[0, 100)`, the search at `(50, 50)` towards TOP returns `C`. -/
theorem C2_cycle_output_first_extremum (outputs : List Output) (p : position_t)
    (d : direction_t) (hd : spec_valid_direction d) :
    (randr_cycle_output_in_direction outputs p d = none ↔
      ∀ o ∈ outputs, ¬ spec_eligible p d o) ∧
    (∀ r, randr_cycle_output_in_direction outputs p d = some r →
      ∃ front back, outputs = front ++ r :: back ∧ spec_eligible p d r ∧
        (∀ q ∈ outputs, spec_eligible p d q → ¬ spec_more_extreme d q r) ∧
        (∀ q ∈ front, spec_eligible p d q → spec_more_extreme d r q)) ∧
    (∀ idA idB idC : Nat,
      randr_cycle_output_in_direction
          [⟨idA, ⟨0, 0, 100, 100⟩⟩, ⟨idB, ⟨0, 100, 100, 100⟩⟩, ⟨idC, ⟨0, 200, 100, 100⟩⟩]
          ⟨50, 50⟩ D_TOP
        = some ⟨idC, ⟨0, 200, 100, 100⟩⟩) := by
  refine ⟨cycle_loop_none_iff p d hd outputs, cycle_loop_from_none p d hd outputs, ?_⟩
  intro idA idB idC
  simp [randr_cycle_output_in_direction, cycle_output_loop]

/-- C2 at a concrete input: two outputs whose vertical spans contain `p.y = 50`; towards
`D_RIGHT` the one with the smaller `x` is returned. -/
theorem C2_cycle_output_first_extremum_witness :
    randr_cycle_output_in_direction
        [⟨1, ⟨100, 0, 100, 100⟩⟩, ⟨2, ⟨0, 0, 100, 100⟩⟩] ⟨150, 50⟩ D_RIGHT
      = some ⟨2, ⟨0, 0, 100, 100⟩⟩ ∧
    ∃ front back,
      [(⟨1, ⟨100, 0, 100, 100⟩⟩ : Output), ⟨2, ⟨0, 0, 100, 100⟩⟩]
        = front ++ (⟨2, ⟨0, 0, 100, 100⟩⟩ : Output) :: back ∧
      spec_eligible ⟨150, 50⟩ D_RIGHT ⟨2, ⟨0, 0, 100, 100⟩⟩ ∧
      (∀ q ∈ [(⟨1, ⟨100, 0, 100, 100⟩⟩ : Output), ⟨2, ⟨0, 0, 100, 100⟩⟩],
        spec_eligible ⟨150, 50⟩ D_RIGHT q →
        ¬ spec_more_extreme D_RIGHT q ⟨2, ⟨0, 0, 100, 100⟩⟩) ∧
      (∀ q ∈ front, spec_eligible ⟨150, 50⟩ D_RIGHT q →
        spec_more_extreme D_RIGHT ⟨2, ⟨0, 0, 100, 100⟩⟩ q) :=
  ⟨by decide,
    (C2_cycle_output_first_extremum
      [⟨1, ⟨100, 0, 100, 100⟩⟩, ⟨2, ⟨0, 0, 100, 100⟩⟩] ⟨150, 50⟩ D_RIGHT
      (Or.inr (Or.inr (Or.inr rfl)))).2.1 ⟨2, ⟨0, 0, 100, 100⟩⟩ (by decide)⟩

/-! ## Auxiliary facts shared by the claims on adjacency and geometry -/

theorem neighbors_false_of_overlap (a b : Output) (d : direction_t)
    (hov : spec_overlap a.rect b.rect) :
    randr_neighbors_in_direction (some a) (some b) d = false := by
  obtain ⟨q, ha, hb⟩ := hov
  unfold spec_inside at ha hb
  cases d with
  | D_TOP => rw [neighbors_top, decide_eq_false_iff_not]; omega
  | D_LEFT => rw [neighbors_left, decide_eq_false_iff_not]; omega
  | D_BOTTOM => rw [neighbors_bottom, decide_eq_false_iff_not]; omega
  | D_RIGHT => rw [neighbors_right, decide_eq_false_iff_not]; omega
  | D_UNKNOWN raw => exact neighbors_unknown _ _ raw

theorem neighbors_rect_only (a r s : Output) (d : direction_t) (h : r.rect = s.rect) :
    randr_neighbors_in_direction (some a) (some r) d
      = randr_neighbors_in_direction (some a) (some s) d := by
  cases d with
  | D_TOP => rw [neighbors_top, neighbors_top, h]
  | D_LEFT => rw [neighbors_left, neighbors_left, h]
  | D_BOTTOM => rw [neighbors_bottom, neighbors_bottom, h]
  | D_RIGHT => rw [neighbors_right, neighbors_right, h]
  | D_UNKNOWN raw => rw [neighbors_unknown, neighbors_unknown]

theorem neighbors_self_false (frm : Output) (d : direction_t)
    (hw : 0 < frm.rect.width) (hh : 0 < frm.rect.height) :
    randr_neighbors_in_direction (some frm) (some frm) d = false := by
  cases d with
  | D_TOP => rw [neighbors_top, decide_eq_false_iff_not]; omega
  | D_LEFT => rw [neighbors_left, decide_eq_false_iff_not]; omega
  | D_BOTTOM => rw [neighbors_bottom, decide_eq_false_iff_not]; omega
  | D_RIGHT => rw [neighbors_right, decide_eq_false_iff_not]; omega
  | D_UNKNOWN raw => exact neighbors_unknown _ _ raw

theorem next_output_adjacent (outputs : List Output) (frm : Option Output)
    (p : position_t) (d : direction_t) (r : Output)
    (h : randr_next_output_in_direction outputs frm p d = some r) :
    r ∈ outputs ∧ randr_neighbors_in_direction frm (some r) d = true := by
  obtain ⟨hwho, _, _⟩ := next_loop_some frm p d outputs none r h
  rcases hwho with hnone | hmem
  · cases hnone
  · exact hmem

/-! ## C11: overlapping outputs are never neighbours -/

/-- C11: for outputs `a` and `b` whose rectangles overlap (some point lies inside both
under half-open bounds), `randr_neighbors_in_direction` is false in each of the four
directions (and for any other direction value); consequently the bounded search from `a`
never returns an output whose rectangle overlaps the rectangle of `a`. -/
theorem C11_overlap_never_adjacent (a b : Output) (d : direction_t)
    (hov : spec_overlap a.rect b.rect) :
    randr_neighbors_in_direction (some a) (some b) d = false ∧
    (∀ (outputs : List Output) (p : position_t) (r : Output),
      randr_next_output_in_direction outputs (some a) p d = some r →
      ¬ spec_overlap a.rect r.rect) := by
  refine ⟨neighbors_false_of_overlap a b d hov, ?_⟩
  intro outputs p r hr hovr
  have hadj := (next_output_adjacent outputs (some a) p d r hr).2
  rw [neighbors_false_of_overlap a r d hovr] at hadj
  cases hadj

/-- C11 at a concrete input: a screen at `(0, 0)` of size `100 x 100` and one at
`(50, 0)` of the same size share the point `(60, 10)`; they are not adjacent towards
`D_RIGHT`. -/
theorem C11_overlap_never_adjacent_witness :
    randr_neighbors_in_direction (some ⟨1, ⟨0, 0, 100, 100⟩⟩) (some ⟨2, ⟨50, 0, 100, 100⟩⟩)
      D_RIGHT = false :=
  (C11_overlap_never_adjacent ⟨1, ⟨0, 0, 100, 100⟩⟩ ⟨2, ⟨50, 0, 100, 100⟩⟩ D_RIGHT
    ⟨⟨60, 10⟩, by decide, by decide⟩).1

/-! ## C12, C13: the empty registry and unknown direction values -/

/-- C12: on the empty registry `randr_get_output_containing`,
`randr_next_output_in_direction` and `randr_cycle_output_in_direction` return none for
every point, every `from` (present or not) and every direction value, valid or not. -/
theorem C12_empty_registry_returns_none (p : position_t) (frm : Option Output)
    (d : direction_t) :
    randr_get_output_containing [] p = none ∧
    randr_next_output_in_direction [] frm p d = none ∧
    randr_cycle_output_in_direction [] p d = none := by
  refine ⟨?_, ?_, ?_⟩
  · simp [randr_get_output_containing]
  · simp [randr_next_output_in_direction, next_output_loop]
  · simp [randr_cycle_output_in_direction, cycle_output_loop]

/-- C13: for a direction value that is none of `D_TOP`, `D_LEFT`, `D_BOTTOM`, `D_RIGHT`,
and every registry, point and outputs (present or not), `randr_neighbors_in_direction`
is false, and `randr_next_output_in_direction` and `randr_cycle_output_in_direction`
return none; the three queries are total functions, so each of them returns. -/
theorem C13_unknown_direction_no_match (d : direction_t) (hd : ¬ spec_valid_direction d)
    (outputs : List Output) (a b frm : Option Output) (p : position_t) :
    randr_neighbors_in_direction a b d = false ∧
    randr_next_output_in_direction outputs frm p d = none ∧
    randr_cycle_output_in_direction outputs p d = none := by
  cases d with
  | D_TOP => exact absurd (Or.inl rfl) hd
  | D_LEFT => exact absurd (Or.inr (Or.inl rfl)) hd
  | D_BOTTOM => exact absurd (Or.inr (Or.inr (Or.inl rfl))) hd
  | D_RIGHT => exact absurd (Or.inr (Or.inr (Or.inr rfl))) hd
  | D_UNKNOWN raw =>
    refine ⟨neighbors_unknown a b raw, ?_, ?_⟩
    · unfold randr_next_output_in_direction
      rw [next_loop_none_iff]
      exact ⟨rfl, fun o _ => neighbors_unknown frm (some o) raw⟩
    · unfold randr_cycle_output_in_direction
      cases outputs <;> simp [cycle_output_loop]

/-- C13 at a concrete input: the direction value 0 on the two-screen registry. -/
theorem C13_unknown_direction_no_match_witness :
    randr_neighbors_in_direction (some ⟨1, ⟨0, 0, 1920, 1080⟩⟩)
      (some ⟨2, ⟨1920, 0, 1920, 1080⟩⟩) (D_UNKNOWN 0) = false ∧
    randr_next_output_in_direction
      [⟨1, ⟨0, 0, 1920, 1080⟩⟩, ⟨2, ⟨1920, 0, 1920, 1080⟩⟩]
      (some ⟨1, ⟨0, 0, 1920, 1080⟩⟩) ⟨1919, 540⟩ (D_UNKNOWN 0) = none ∧
    randr_cycle_output_in_direction
      [⟨1, ⟨0, 0, 1920, 1080⟩⟩, ⟨2, ⟨1920, 0, 1920, 1080⟩⟩] ⟨1919, 540⟩ (D_UNKNOWN 0)
      = none :=
  C13_unknown_direction_no_match (D_UNKNOWN 0)
    (by simp [spec_valid_direction])
    [⟨1, ⟨0, 0, 1920, 1080⟩⟩, ⟨2, ⟨1920, 0, 1920, 1080⟩⟩]
    (some ⟨1, ⟨0, 0, 1920, 1080⟩⟩) (some ⟨2, ⟨1920, 0, 1920, 1080⟩⟩)
    (some ⟨1, ⟨0, 0, 1920, 1080⟩⟩) ⟨1919, 540⟩

/-! ## C18: wrap-around from a pointer that is on a screen -/

theorem eligible_of_inside (p : position_t) (d : direction_t) (c : Output)
    (hd : spec_valid_direction d) (hin : spec_inside p c.rect) : spec_eligible p d c := by
  unfold spec_inside at hin
  rcases hd with rfl | rfl | rfl | rfl <;> simp only [spec_eligible] <;> omega

/-- C18: if `randr_get_output_containing` returns an output `c` for the point `p`, then for
each of the four directions `randr_cycle_output_in_direction` returns an output `r`, and
for TOP `r.y + r.height` is at least `c.y + c.height`, for BOTTOM `r.y` is at most `c.y`,
for LEFT `r.x + r.width` is at least `c.x + c.width`, and for RIGHT `r.x` is at most
`c.x`. -/
theorem C18_cycle_succeeds_on_screen (outputs : List Output) (p : position_t)
    (d : direction_t) (c : Output) (hd : spec_valid_direction d)
    (hc : randr_get_output_containing outputs p = some c) :
    ∃ r, randr_cycle_output_in_direction outputs p d = some r ∧
      (d = D_TOP → c.rect.y + c.rect.height ≤ r.rect.y + r.rect.height) ∧
      (d = D_BOTTOM → r.rect.y ≤ c.rect.y) ∧
      (d = D_LEFT → c.rect.x + c.rect.width ≤ r.rect.x + r.rect.width) ∧
      (d = D_RIGHT → r.rect.x ≤ c.rect.x) := by
  obtain ⟨front, back, hsplit, hin, _⟩ := contains_some_split outputs p c hc
  have hmem : c ∈ outputs := by rw [hsplit]; simp
  have hel : spec_eligible p d c := eligible_of_inside p d c hd hin
  cases hr : randr_cycle_output_in_direction outputs p d with
  | none =>
    exact absurd hel ((cycle_loop_none_iff p d hd outputs).mp hr c hmem)
  | some r =>
    obtain ⟨_, _, _, _, hmax, _⟩ := cycle_loop_from_none p d hd outputs r hr
    have hnot : ¬ spec_more_extreme d c r := hmax c hmem hel
    refine ⟨r, rfl, ?_, ?_, ?_, ?_⟩ <;> intro hdir <;> subst hdir <;>
      simp only [spec_more_extreme, spec_edge] at hnot <;> omega

/-- C18 at a concrete input: three stacked screens, the pointer on the middle one; the
wrap towards `D_TOP` reaches the lowest screen, whose bottom edge 300 is at least 200. -/
theorem C18_cycle_succeeds_on_screen_witness :
    ∃ r, randr_cycle_output_in_direction
        [⟨1, ⟨0, 0, 100, 100⟩⟩, ⟨2, ⟨0, 100, 100, 100⟩⟩, ⟨3, ⟨0, 200, 100, 100⟩⟩]
        ⟨50, 150⟩ D_TOP = some r ∧
      (D_TOP = D_TOP → (100 : Int) + ((100 : Nat) : Int) ≤ r.rect.y + r.rect.height) ∧
      (D_TOP = D_BOTTOM → r.rect.y ≤ (100 : Int)) ∧
      (D_TOP = D_LEFT → (0 : Int) + ((100 : Nat) : Int) ≤ r.rect.x + r.rect.width) ∧
      (D_TOP = D_RIGHT → r.rect.x ≤ (0 : Int)) :=
  C18_cycle_succeeds_on_screen
    [⟨1, ⟨0, 0, 100, 100⟩⟩, ⟨2, ⟨0, 100, 100, 100⟩⟩, ⟨3, ⟨0, 200, 100, 100⟩⟩]
    ⟨50, 150⟩ D_TOP ⟨2, ⟨0, 100, 100, 100⟩⟩ (Or.inl rfl) (by decide)

/-! ## C19, C20: adjacency reads one axis only -/

/-- C19: towards `D_TOP` and `D_BOTTOM` the value of `randr_neighbors_in_direction` is
unchanged when the `x` and `width` (and identifiers) of both outputs are replaced by
arbitrary values, and towards `D_LEFT` and `D_RIGHT` when their `y` and `height` are; so
`a = (0, 100, 100, 100)` and `b = (500, 0, 100, 100)`, whose horizontal spans are
disjoint, are adjacent towards `D_TOP`, and the bounded search from `a` over the
registry of `a` and `b` returns `b` for every pointer. -/
theorem C19_adjacency_ignores_other_axis (a b : Output) (ida idb : Nat)
    (xa xb ya yb : Int) (wa wb ha hb : Nat) :
    randr_neighbors_in_direction (some ⟨ida, ⟨xa, a.rect.y, wa, a.rect.height⟩⟩)
        (some ⟨idb, ⟨xb, b.rect.y, wb, b.rect.height⟩⟩) D_TOP
      = randr_neighbors_in_direction (some a) (some b) D_TOP ∧
    randr_neighbors_in_direction (some ⟨ida, ⟨xa, a.rect.y, wa, a.rect.height⟩⟩)
        (some ⟨idb, ⟨xb, b.rect.y, wb, b.rect.height⟩⟩) D_BOTTOM
      = randr_neighbors_in_direction (some a) (some b) D_BOTTOM ∧
    randr_neighbors_in_direction (some ⟨ida, ⟨a.rect.x, ya, a.rect.width, ha⟩⟩)
        (some ⟨idb, ⟨b.rect.x, yb, b.rect.width, hb⟩⟩) D_LEFT
      = randr_neighbors_in_direction (some a) (some b) D_LEFT ∧
    randr_neighbors_in_direction (some ⟨ida, ⟨a.rect.x, ya, a.rect.width, ha⟩⟩)
        (some ⟨idb, ⟨b.rect.x, yb, b.rect.width, hb⟩⟩) D_RIGHT
      = randr_neighbors_in_direction (some a) (some b) D_RIGHT ∧
    randr_neighbors_in_direction (some ⟨ida, ⟨0, 100, 100, 100⟩⟩)
        (some ⟨idb, ⟨500, 0, 100, 100⟩⟩) D_TOP = true ∧
    (∀ p : position_t,
      randr_next_output_in_direction
          [⟨ida, ⟨0, 100, 100, 100⟩⟩, ⟨idb, ⟨500, 0, 100, 100⟩⟩]
          (some ⟨ida, ⟨0, 100, 100, 100⟩⟩) p D_TOP
        = some ⟨idb, ⟨500, 0, 100, 100⟩⟩) := by
  refine ⟨?_, ?_, ?_, ?_, ?_, ?_⟩
  · rw [neighbors_top, neighbors_top]
  · rw [neighbors_bottom, neighbors_bottom]
  · rw [neighbors_left, neighbors_left]
  · rw [neighbors_right, neighbors_right]
  · simp [neighbors_top]
  · intro p
    simp [randr_next_output_in_direction, next_loop_cons, neighbors_top,
      randr_get_output_closer_to, next_output_loop]

/-- C20: an output `frm` with `width > 0` and `height > 0` is not adjacent to itself in
any of the four directions (nor for another direction value), so the bounded search from
`frm` never returns an output whose rectangle equals the rectangle of `frm`. -/
theorem C20_never_warps_onto_itself (frm : Output) (d : direction_t)
    (hw : 0 < frm.rect.width) (hh : 0 < frm.rect.height) :
    randr_neighbors_in_direction (some frm) (some frm) d = false ∧
    (∀ (outputs : List Output) (p : position_t) (r : Output),
      randr_next_output_in_direction outputs (some frm) p d = some r →
      r.rect ≠ frm.rect) := by
  refine ⟨neighbors_self_false frm d hw hh, ?_⟩
  intro outputs p r hr heq
  have hadj := (next_output_adjacent outputs (some frm) p d r hr).2
  rw [neighbors_rect_only frm r frm d heq, neighbors_self_false frm d hw hh] at hadj
  cases hadj

/-- C20 at a concrete input: the left screen of the two-screen registry, towards
`D_RIGHT`. -/
theorem C20_never_warps_onto_itself_witness :
    randr_neighbors_in_direction (some ⟨1, ⟨0, 0, 1920, 1080⟩⟩)
        (some ⟨1, ⟨0, 0, 1920, 1080⟩⟩) D_RIGHT = false ∧
    (∀ (outputs : List Output) (p : position_t) (r : Output),
      randr_next_output_in_direction outputs (some ⟨1, ⟨0, 0, 1920, 1080⟩⟩) p D_RIGHT
        = some r →
      r.rect ≠ (⟨0, 0, 1920, 1080⟩ : Rect)) :=
  C20_never_warps_onto_itself ⟨1, ⟨0, 0, 1920, 1080⟩⟩ D_RIGHT (by decide) (by decide)

/-! ## Auxiliary facts about the registry rebuild -/

theorem clear_outputs_eq (outputs : List Output) : clear_outputs outputs = [] := by
  induction outputs with
  | nil => rfl
  | cons o rest ih => simpa [clear_outputs] using ih

/-- One visit of the loop appends the record of the visited output when it resolves and
its allocation succeeds, and nothing otherwise. -/
theorem query_loop_step (srv : XServer) (timestamp i id : Nat) (rest : List Nat)
    (acc : List Output) :
    query_outputs_loop srv timestamp i (id :: rest) acc
      = query_outputs_loop srv timestamp (i + 1) rest
          (acc ++ (if srv.calloc_ok i then spec_resolved srv timestamp id
            else none).toList) := by
  simp only [query_outputs_loop, spec_resolved]
  cases hinfo : srv.output_info id timestamp with
  | none => simp
  | some info =>
    simp only [randr_handle_output]
    by_cases hskip : info.crtc = XCB_NONE ∨ info.connection = XCB_RANDR_CONNECTION_DISCONNECTED
    · simp [hskip]
    · simp only [hskip, if_false]
      cases hcrtc : srv.crtc_info info.crtc timestamp with
      | none => simp
      | some geometry => cases hok : srv.calloc_ok i <;> simp

theorem query_loop_eq (srv : XServer) (timestamp : Nat) (ids : List Nat) (i : Nat)
    (acc : List Output) :
    query_outputs_loop srv timestamp i ids acc
      = acc ++ (ids.enumFrom i).filterMap
          (fun e => if srv.calloc_ok e.1 then spec_resolved srv timestamp e.2 else none) := by
  induction ids generalizing i acc with
  | nil => simp [query_outputs_loop]
  | cons id rest ih =>
    rw [query_loop_step, ih, List.enumFrom_cons, List.filterMap_cons]
    cases hentry : (if srv.calloc_ok i then spec_resolved srv timestamp id else none) with
    | none => simp
    | some o => simp

theorem query_outputs_fetched (config : Config) (srv : XServer) (outputs : List Output)
    (reply : screen_resources_reply) (hfake : config.fake_outputs = none)
    (hreply : srv.screen_resources = some reply) :
    randr_query_outputs config srv outputs
      = query_result.returned (spec_rebuilt_allocated srv reply) := by
  simp [randr_query_outputs, hfake, hreply, clear_outputs_eq, query_loop_eq,
    spec_rebuilt_allocated, List.enum]

theorem query_outputs_fetch_failed (config : Config) (srv : XServer) (outputs : List Output)
    (hfake : config.fake_outputs = none) (hfail : srv.screen_resources = none) :
    randr_query_outputs config srv outputs = query_result.bailed [] := by
  simp [randr_query_outputs, hfake, hfail, clear_outputs_eq]

theorem query_outputs_fake (config : Config) (srv : XServer) (outputs : List Output)
    (hfake : config.fake_outputs ≠ none) :
    randr_query_outputs config srv outputs = query_result.returned outputs := by
  simp [randr_query_outputs, hfake]

theorem rebuilt_allocated_eq (srv : XServer) (reply : screen_resources_reply)
    (hok : ∀ i, srv.calloc_ok i = true) :
    spec_rebuilt_allocated srv reply = spec_rebuilt srv reply := by
  unfold spec_rebuilt_allocated spec_rebuilt
  simp only [hok, if_true]
  have hcomp : (fun e : Nat × Nat => spec_resolved srv reply.config_timestamp e.2)
      = spec_resolved srv reply.config_timestamp ∘ Prod.snd := rfl
  rw [hcomp, ← List.filterMap_map, List.enum_map_snd]

theorem resolved_geometry (srv : XServer) (timestamp id : Nat) (o : Output)
    (h : spec_resolved srv timestamp id = some o) :
    ∃ c g, srv.crtc_info c timestamp = some g ∧ o.rect.width = g.width ∧
      o.rect.height = g.height := by
  unfold spec_resolved at h
  cases hinfo : srv.output_info id timestamp with
  | none => simp [hinfo] at h
  | some info =>
    simp only [hinfo] at h
    by_cases hskip : info.crtc = XCB_NONE ∨ info.connection = XCB_RANDR_CONNECTION_DISCONNECTED
    · simp [hskip] at h
    · simp only [hskip, if_false] at h
      cases hcrtc : srv.crtc_info info.crtc timestamp with
      | none => simp [hcrtc] at h
      | some g =>
        simp only [hcrtc, Option.some.injEq] at h
        exact ⟨info.crtc, g, hcrtc, by rw [← h], by rw [← h]⟩

/-! ## C14: what a successful rebuild leaves in the registry -/

/-- C14, refuted as stated: the snapshot holds one output, 7, whose output info and CRTC
geometry `(0, 0, 100, 100)` resolve, but the `calloc` of its record fails; the rebuild
returns with an empty registry, whereas the sequence of the resolved outputs of the
snapshot is the one record of output 7. -/
theorem C14_rebuild_registry_counterexample :
    randr_query_outputs ⟨none⟩
        ⟨some ⟨0, [7]⟩, fun _ _ => some ⟨1, 0⟩, fun _ _ => some ⟨0, 0, 100, 100⟩,
          fun _ => false⟩ []
      = query_result.returned [] ∧
    spec_rebuilt
        ⟨some ⟨0, [7]⟩, fun _ _ => some ⟨1, 0⟩, fun _ _ => some ⟨0, 0, 100, 100⟩,
          fun _ => false⟩ ⟨0, [7]⟩
      = [⟨7, ⟨0, 0, 100, 100⟩⟩] ∧
    randr_query_outputs ⟨none⟩
        ⟨some ⟨0, [7]⟩, fun _ _ => some ⟨1, 0⟩, fun _ _ => some ⟨0, 0, 100, 100⟩,
          fun _ => false⟩ []
      ≠ query_result.returned (spec_rebuilt
        ⟨some ⟨0, [7]⟩, fun _ _ => some ⟨1, 0⟩, fun _ _ => some ⟨0, 0, 100, 100⟩,
          fun _ => false⟩ ⟨0, [7]⟩) := by
  refine ⟨by decide, by decide, by decide⟩

/-- C14, amended: when no fixed output list is configured and the screen-resources
request succeeds, `randr_query_outputs` returns with the registry equal to the sequence,
in snapshot order, of the snapshot outputs that resolve (output info resolved, a CRTC,
not disconnected, CRTC geometry resolved) and whose record allocation succeeded, each
with its identifier and the geometry of its CRTC; the previous registry does not occur
in it.  When every allocation succeeds this is the sequence of the resolved outputs. -/
theorem C14_rebuild_registry (config : Config) (srv : XServer) (outputs : List Output)
    (reply : screen_resources_reply) (hfake : config.fake_outputs = none)
    (hreply : srv.screen_resources = some reply) :
    randr_query_outputs config srv outputs
      = query_result.returned (spec_rebuilt_allocated srv reply) ∧
    ((∀ i, srv.calloc_ok i = true) →
      randr_query_outputs config srv outputs
        = query_result.returned (spec_rebuilt srv reply)) := by
  refine ⟨query_outputs_fetched config srv outputs reply hfake hreply, ?_⟩
  intro hok
  rw [query_outputs_fetched config srv outputs reply hfake hreply,
    rebuilt_allocated_eq srv reply hok]

/-- C14 (amended) at a concrete input: of the outputs 7, 8, 9 the second is
disconnected and the third has no output info; with an old output in the registry and
every allocation succeeding, the rebuild leaves exactly the record of output 7. -/
theorem C14_rebuild_registry_witness :
    randr_query_outputs ⟨none⟩
        ⟨some ⟨0, [7, 8, 9]⟩,
          fun id _ => if id = 7 then some ⟨1, 0⟩ else if id = 8 then some ⟨2, 1⟩ else none,
          fun _ _ => some ⟨0, 0, 100, 100⟩, fun _ => true⟩ [⟨5, ⟨3, 3, 3, 3⟩⟩]
      = query_result.returned [⟨7, ⟨0, 0, 100, 100⟩⟩] :=
  (C14_rebuild_registry ⟨none⟩
    ⟨some ⟨0, [7, 8, 9]⟩,
      fun id _ => if id = 7 then some ⟨1, 0⟩ else if id = 8 then some ⟨2, 1⟩ else none,
      fun _ _ => some ⟨0, 0, 100, 100⟩, fun _ => true⟩ [⟨5, ⟨3, 3, 3, 3⟩⟩]
    ⟨0, [7, 8, 9]⟩ rfl rfl).2 (fun _ => rfl)

/-! ## C15: a failed screen-resources request -/

/-- C15, refuted as stated: with one output in the registry, no fixed output list and a
`NULL` reply to the screen-resources request, `randr_query_outputs` ends in `bail` with
the registry already emptied, not with its previous contents. -/
theorem C15_failed_fetch_counterexample :
    randr_query_outputs ⟨none⟩ ⟨none, fun _ _ => none, fun _ _ => none, fun _ => true⟩
        [⟨1, ⟨0, 0, 1920, 1080⟩⟩]
      = query_result.bailed [] ∧
    (randr_query_outputs ⟨none⟩ ⟨none, fun _ _ => none, fun _ _ => none, fun _ => true⟩
        [⟨1, ⟨0, 0, 1920, 1080⟩⟩]).registry
      ≠ [⟨1, ⟨0, 0, 1920, 1080⟩⟩] := by
  refine ⟨by decide, by decide⟩

/-- C15, amended: when no fixed output list is configured and the screen-resources
request fails, `randr_query_outputs` ends in `bail` (the process-fatal abort), and the
registry has been emptied before the request: its previous contents are not kept. -/
theorem C15_failed_fetch_bails_empty (config : Config) (srv : XServer)
    (outputs : List Output) (hfake : config.fake_outputs = none)
    (hfail : srv.screen_resources = none) :
    randr_query_outputs config srv outputs = query_result.bailed [] ∧
    (randr_query_outputs config srv outputs).registry = [] := by
  rw [query_outputs_fetch_failed config srv outputs hfake hfail]
  exact ⟨rfl, rfl⟩

/-- C15 (amended) at a concrete input: the registry of two screens and a failing
request. -/
theorem C15_failed_fetch_bails_empty_witness :
    randr_query_outputs ⟨none⟩ ⟨none, fun _ _ => none, fun _ _ => none, fun _ => true⟩
        [⟨1, ⟨0, 0, 1920, 1080⟩⟩, ⟨2, ⟨1920, 0, 1920, 1080⟩⟩]
      = query_result.bailed [] ∧
    (randr_query_outputs ⟨none⟩ ⟨none, fun _ _ => none, fun _ _ => none, fun _ => true⟩
        [⟨1, ⟨0, 0, 1920, 1080⟩⟩, ⟨2, ⟨1920, 0, 1920, 1080⟩⟩]).registry = [] :=
  C15_failed_fetch_bails_empty ⟨none⟩
    ⟨none, fun _ _ => none, fun _ _ => none, fun _ => true⟩
    [⟨1, ⟨0, 0, 1920, 1080⟩⟩, ⟨2, ⟨1920, 0, 1920, 1080⟩⟩] rfl rfl

/-! ## C16: fake outputs make the rebuild a no-op -/

/-- C16: when a fixed (fake) output list is configured, `randr_query_outputs` returns
with the registry it was called with, for every prior registry and every snapshot. -/
theorem C16_fake_outputs_noop (config : Config) (srv : XServer) (outputs : List Output)
    (hfake : config.fake_outputs ≠ none) :
    randr_query_outputs config srv outputs = query_result.returned outputs :=
  query_outputs_fake config srv outputs hfake

/-- C16 at a concrete input: a configured fake list, a registry of one output and a
snapshot that would resolve another output. -/
theorem C16_fake_outputs_noop_witness :
    randr_query_outputs ⟨some "1920x1080+0+0"⟩
        ⟨some ⟨0, [7]⟩, fun _ _ => some ⟨1, 0⟩, fun _ _ => some ⟨0, 0, 100, 100⟩,
          fun _ => true⟩ [⟨1, ⟨0, 0, 1920, 1080⟩⟩]
      = query_result.returned [⟨1, ⟨0, 0, 1920, 1080⟩⟩] :=
  C16_fake_outputs_noop ⟨some "1920x1080+0+0"⟩
    ⟨some ⟨0, [7]⟩, fun _ _ => some ⟨1, 0⟩, fun _ _ => some ⟨0, 0, 100, 100⟩,
      fun _ => true⟩ [⟨1, ⟨0, 0, 1920, 1080⟩⟩] (by simp)

/-! ## C17: the dimensions of the registered outputs -/

/-- C17, refuted as stated: the snapshot holds one connected output, 7, whose CRTC
geometry reply has width 0 and height 0; the rebuild inserts its record, so the registry
holds an output with width 0. -/
theorem C17_zero_dimension_counterexample :
    randr_query_outputs ⟨none⟩
        ⟨some ⟨0, [7]⟩, fun _ _ => some ⟨1, 0⟩, fun _ _ => some ⟨0, 0, 0, 0⟩,
          fun _ => true⟩ []
      = query_result.returned [⟨7, ⟨0, 0, 0, 0⟩⟩] ∧
    ¬ (∀ o ∈ (randr_query_outputs ⟨none⟩
        ⟨some ⟨0, [7]⟩, fun _ _ => some ⟨1, 0⟩, fun _ _ => some ⟨0, 0, 0, 0⟩,
          fun _ => true⟩ []).registry, 0 < o.rect.width ∧ 0 < o.rect.height) := by
  refine ⟨by decide, by decide⟩

/-- C17, amended: `randr_query_outputs` copies the width and height of the CRTC geometry
reply and checks neither; so after a rebuild every output of the registry has
`width > 0` and `height > 0` provided every CRTC geometry reply of the snapshot has
(and, when a fixed output list makes the rebuild a no-op, provided the registry had the
property before). -/
theorem C17_positive_dimensions_from_snapshot (config : Config) (srv : XServer)
    (outputs : List Output)
    (hsnap : ∀ c t g, srv.crtc_info c t = some g → 0 < g.width ∧ 0 < g.height)
    (hprev : config.fake_outputs ≠ none →
      ∀ o ∈ outputs, 0 < o.rect.width ∧ 0 < o.rect.height) :
    ∀ o ∈ (randr_query_outputs config srv outputs).registry,
      0 < o.rect.width ∧ 0 < o.rect.height := by
  by_cases hfake : config.fake_outputs = none
  · cases hres : srv.screen_resources with
    | none =>
      rw [query_outputs_fetch_failed config srv outputs hfake hres]
      intro o ho
      cases ho
    | some reply =>
      rw [query_outputs_fetched config srv outputs reply hfake hres]
      intro o ho
      simp only [query_result.registry, spec_rebuilt_allocated, List.mem_filterMap] at ho
      obtain ⟨e, _, he⟩ := ho
      have hresolved : spec_resolved srv reply.config_timestamp e.2 = some o := by
        by_cases hok : srv.calloc_ok e.1 = true
        · simpa [hok] using he
        · simp [hok] at he
      obtain ⟨c, g, hg, hw, hh⟩ := resolved_geometry srv _ _ o hresolved
      rw [hw, hh]
      exact hsnap c _ g hg
  · rw [query_outputs_fake config srv outputs hfake]
    exact hprev hfake

/-- C17 (amended) at a concrete input: a snapshot whose only CRTC geometry is
`(0, 0, 100, 100)`; the rebuilt registry has positive dimensions. -/
theorem C17_positive_dimensions_from_snapshot_witness :
    (randr_query_outputs ⟨none⟩
        ⟨some ⟨0, [7]⟩, fun _ _ => some ⟨1, 0⟩, fun _ _ => some ⟨0, 0, 100, 100⟩,
          fun _ => true⟩ [⟨5, ⟨3, 3, 0, 0⟩⟩]).registry = [⟨7, ⟨0, 0, 100, 100⟩⟩] ∧
    (∀ o ∈ (randr_query_outputs ⟨none⟩
        ⟨some ⟨0, [7]⟩, fun _ _ => some ⟨1, 0⟩, fun _ _ => some ⟨0, 0, 100, 100⟩,
          fun _ => true⟩ [⟨5, ⟨3, 3, 0, 0⟩⟩]).registry,
      0 < o.rect.width ∧ 0 < o.rect.height) :=
  ⟨by decide,
    C17_positive_dimensions_from_snapshot ⟨none⟩
      ⟨some ⟨0, [7]⟩, fun _ _ => some ⟨1, 0⟩, fun _ _ => some ⟨0, 0, 100, 100⟩,
        fun _ => true⟩ [⟨5, ⟨3, 3, 0, 0⟩⟩]
      (by
        intro c t g hg
        cases hg
        exact ⟨by decide, by decide⟩)
      (by intro h; exact absurd rfl h)⟩

end XEdgeWarp
